import Mathlib

/-!
Shallow embedding of `src/common.py` (jimmyadeline/stock) over exact rationals,
together with theorems settling the frozen claims about its specification.

Prices and returns are modelled as `ℚ` (Python floats treated as exact reals);
a price series is a `List ℚ`.  Fallible Python code is modelled with
`Except PyErr`.  Numpy helpers are translated pointwise: `np.max` over a
nonempty slice is a fold with `max`, `np.average` is sum divided by length.
-/

/-- Python exceptions that the embedded code can raise.  `indexError` models
`IndexError` (out-of-range list subscript), `valueError` models `ValueError`
(failed `int(...)` parse), `exception msg` models `raise Exception(msg)`.
`degenerateCalibration` is the spec's `DegenerateCalibrationError` (spec §7);
no code in `src/` raises it — it exists here so claims about it can be stated. -/
inductive PyErr where
  | indexError
  | valueError
  | exception (msg : String)
  | degenerateCalibration
deriving Repr, DecidableEq

/-- Constant `DATE_RANGE = 5` from src/common.py line 12. -/
def DATE_RANGE : ℕ := 5

/-- Constant `MAX_STOCK_PICK = 3` from src/common.py line 17. -/
def MAX_STOCK_PICK : ℕ := 3

/-- Constant `GARBAGE_FILTER_THRESHOLD = 0.7` from src/common.py line 18. -/
def GARBAGE_FILTER_THRESHOLD : ℚ := 7 / 10

/-- Constant `VOLUME_FILTER_THRESHOLD = 10000` from src/common.py line 19. -/
def VOLUME_FILTER_THRESHOLD : Int := 10000

/-- Exact value of `np.finfo(float).min`, the largest-magnitude negative
IEEE-754 double, `-(2 - 2^-52) * 2^1023`, used at src/common.py line 43. -/
def floatMin : ℚ := -(2 ^ 1024 - 2 ^ 971)

/-- Maximum of a list of rationals; `np.max` for a nonempty list.  The `[]`
case returns the junk value `0` (numpy raises there; every use in the
embedded code is on a nonempty slice). -/
def listMax : List ℚ → ℚ
  | [] => 0
  | h :: t => t.foldl max h

/-- Value of `np.max(series[a:b])`: maximum of the slice `[a, b)`. -/
def sliceMax (s : List ℚ) (a b : ℕ) : ℚ := listMax ((s.drop a).take (b - a))

/-- Python list subscript with negative-index support: `l[i]` is `l[len+i]`
for `i < 0`; `none` models `IndexError`. -/
def pyGetIdx {α : Type} (l : List α) (i : Int) : Option α :=
  let j : Int := if i < 0 then (l.length : Int) + i else i
  if 0 ≤ j then l.get? j.toNat else none

/-- Line 39 of src/common.py:
`down_t = [i + 1 for i in range(DATE_RANGE - 1, len(series) - 1) if series[i] >= series[i + 1]]`. -/
def downT (s : List ℚ) : List ℕ :=
  ((List.range' (DATE_RANGE - 1) (s.length - DATE_RANGE)).filter
    (fun i => decide (s.getD (i + 1) 0 ≤ s.getD i 0))).map (· + 1)

/-- Line 40 of src/common.py:
`down_percent = [(np.max(series[i - DATE_RANGE:i]) - series[i]) / np.max(series[i - DATE_RANGE:i]) for i in down_t]`. -/
def downPercent (s : List ℚ) : List ℚ :=
  (downT s).map (fun t =>
    (sliceMax s (t - DATE_RANGE) t - s.getD t 0) / sliceMax s (t - DATE_RANGE) t)

/-- Comparison used to rank dip events: index `i` comes before index `j` when
its depth is strictly larger, or the depths are equal and `i ≤ j`.  Sorting by
this total order reproduces line 41 of src/common.py,
`pick_ti = sorted(range(len(down_percent)), key=lambda i: down_percent[i], reverse=True)`,
since Python's `sorted` is stable (equal keys keep their original order). -/
def rankLe (dp : List ℚ) (i j : ℕ) : Prop :=
  dp.getD j 0 < dp.getD i 0 ∨ (dp.getD i 0 = dp.getD j 0 ∧ i ≤ j)

instance rankLeDecidable (dp : List ℚ) : DecidableRel (rankLe dp) :=
  fun i j =>
    inferInstanceAs (Decidable (dp.getD j 0 < dp.getD i 0 ∨ (dp.getD i 0 = dp.getD j 0 ∧ i ≤ j)))

/-- Line 41 of src/common.py: the ranking of dip-event positions, deepest
first, ties by original scan order. -/
def pickTi (dp : List ℚ) : List ℕ := List.insertionSort (rankLe dp) (List.range dp.length)

/-- Mutable state of the scan loop of lines 42-56 of src/common.py. -/
structure LoopState where
  tol : Int
  maxAvg : ℚ
  nPick : ℕ
deriving Repr, DecidableEq

/-- Initial loop state: `tol = 50`, `max_avg_gain = np.finfo(float).min`,
`n_pick = 0` (lines 42-44 of src/common.py). -/
def initState : LoopState := ⟨50, floatMin, 0⟩

/-- Lines 46-47 of src/common.py for one candidate `k` (`n_point`):
`potential_t = down_t[pick_ti[:n_point]]` and
`gains = [(series[t + 1] - series[t]) / series[t] for t in potential_t if t + 1 < len(series)]`. -/
def gainsFor (s : List ℚ) (dt pt : List ℕ) (k : ℕ) : List ℚ :=
  (((pt.take k).map (fun j => dt.getD j 0)).filter (fun t => decide (t + 1 < s.length))).map
    (fun t => (s.getD (t + 1) 0 - s.getD t 0) / s.getD t 0)

/-- Average of `gainsFor` (`np.average(gains)`, line 49 of src/common.py). -/
def avgFor (s : List ℚ) (dt pt : List ℕ) (k : ℕ) : ℚ :=
  (gainsFor s dt pt k).sum / ((gainsFor s dt pt k).length : ℚ)

/-- One iteration of the loop body, lines 46-56 of src/common.py.  Returns the
updated state and whether the `break` at line 56 fires (`if not tol: break`,
which only runs when `len(gains) > 0`). -/
def loopBody (s : List ℚ) (dt pt : List ℕ) (st : LoopState) (k : ℕ) : LoopState × Bool :=
  let gains := gainsFor s dt pt k
  if gains.length = 0 then (st, false)
  else
    let avg := gains.sum / (gains.length : ℚ)
    let st1 :=
      if st.maxAvg < avg then { st with nPick := k, maxAvg := avg }
      else { st with tol := st.tol - 1 }
    (st1, decide (st1.tol = 0))

/-- The scan loop `for n_point in range(1, len(pick_ti))` of lines 45-56 of
src/common.py, run over the list `ks` of remaining candidates.  Returns the
final state together with the list of candidates `k` actually iterated
(the iteration at which `break` fires is included). -/
def runLoop (s : List ℚ) (dt pt : List ℕ) : LoopState → List ℕ → LoopState × List ℕ
  | st, [] => (st, [])
  | st, k :: ks =>
    match loopBody s dt pt st k with
    | (st1, true) => (st1, [k])
    | (st1, false) =>
      let r := runLoop s dt pt st1 ks
      (r.1, k :: r.2)

/-- Candidate values of `n_point`: `range(1, len(pick_ti))`, i.e. `1` to
`n - 1` where `n = len(pick_ti)` (line 45 of src/common.py). -/
def loopKs (n : ℕ) : List ℕ := List.range' 1 (n - 1)

/-- Whole scan loop of `get_picked_points`, packaged so that the final state
and the visited candidates can be named separately. -/
def calibLoop (s : List ℚ) : LoopState × List ℕ :=
  runLoop s (downT s) (pickTi (downPercent s)) initState (loopKs (pickTi (downPercent s)).length)

/-- Final loop state of `get_picked_points` on `s`. -/
def finalState (s : List ℚ) : LoopState := (calibLoop s).1

/-- Values of `n_point` the scan loop actually considered on `s`. -/
def visitedKs (s : List ℚ) : List ℕ := (calibLoop s).2

/-- Averages `avg_gain` computed along a list of considered candidates: one
for every `k` whose `gains` list is nonempty. -/
def avgsAlong (s : List ℚ) (dt pt : List ℕ) (v : List ℕ) : List ℚ :=
  v.filterMap (fun k =>
    if (gainsFor s dt pt k).length = 0 then none else some (avgFor s dt pt k))

/-- Averages `avg_gain` actually computed by the scan loop on `s` (one for
every considered `k` whose `gains` list is nonempty). -/
def computedAvgs (s : List ℚ) : List ℚ :=
  avgsAlong s (downT s) (pickTi (downPercent s)) (visitedKs s)

/-- Lines 38-60 of src/common.py, `get_picked_points(series)`.  Returns
`(pick_t, max_avg_gain, threshold)`.  `pick_ti[n_pick - 1]` at line 57 uses
Python indexing, so `n_pick = 0` reads `pick_ti[-1]` (the last element) and
raises `IndexError` when `pick_ti` is empty. -/
def get_picked_points (s : List ℚ) : Except PyErr (List ℕ × ℚ × ℚ) :=
  let dt := downT s
  let dp := downPercent s
  let pt := pickTi dp
  let st := finalState s
  match pyGetIdx pt ((st.nPick : Int) - 1) with
  | none => .error .indexError
  | some ti => .ok ((pt.take st.nPick).map (fun j => dt.getD j 0), st.maxAvg, dp.getD ti 0)

/-- Lines 63-68 of src/common.py, `get_buy_signal(series, price)`.
`series[-1]` on an empty series raises `IndexError`. -/
def get_buy_signal (s : List ℚ) (price : ℚ) : Except PyErr (ℚ × Bool) :=
  match s.getLast? with
  | none => .error .indexError
  | some last =>
    if last ≤ price then .ok (0, false)
    else
      match get_picked_points s with
      | .error e => .error e
      | .ok (_, avg_return, threshold) =>
        let m := listMax (s.drop (s.length - DATE_RANGE))
        let down_percent := (m - price) / m
        .ok (avg_return, decide (threshold < down_percent))

/-- Data model record `CalibrationResult` from spec §3. -/
structure CalibrationResult where
  pickedEvents : List ℕ
  averageRebound : ℚ
  depthThreshold : ℚ

/-- DipThresholdEstimator of spec §4.1: `get_picked_points` repackaged into
the spec's `CalibrationResult` record. -/
def estimate (s : List ℚ) : Except PyErr CalibrationResult :=
  (get_picked_points s).map (fun r => ⟨r.1, r.2.1, r.2.2⟩)

/-- BuySignalEvaluator as described by the specification text (spec §4.2),
written from the spec's words to compare against `get_buy_signal`:
if `currentPrice >= series[last]` return `(0, false)` with no calibration;
otherwise get a `CalibrationResult`, set
`currentDepth = (max(series[-DATE_RANGE:]) - currentPrice) / max(series[-DATE_RANGE:])`,
`isBuy = currentDepth > depthThreshold`, and return `(averageRebound, isBuy)`. -/
def evaluate_spec (s : List ℚ) (currentPrice : ℚ) : Except PyErr (ℚ × Bool) :=
  match s.getLast? with
  | none => .error .indexError
  | some lastPrice =>
    if currentPrice ≥ lastPrice then .ok (0, false)
    else
      match estimate s with
      | .error e => .error e
      | .ok cr =>
        let m := listMax (s.drop (s.length - DATE_RANGE))
        let currentDepth := (m - currentPrice) / m
        .ok (cr.averageRebound, decide (currentDepth > cr.depthThreshold))

/-- Lines 105-110 of src/common.py, `filter_garbage_series(all_series)`.
The Python dict is modelled as an insertion-ordered association list. -/
def filter_garbage_series (all_series : List (String × List ℚ)) : List (String × List ℚ) :=
  all_series.filter (fun p => decide (listMax p.2 * GARBAGE_FILTER_THRESHOLD ≤ p.2.getLastD 0))

/-- Occurrence search `c.find(prefix)` of Python `str.find`: index of the
first occurrence of `p` in `c`, `none` for `-1`. -/
def strFind (c p : List Char) : Option ℕ :=
  (List.range (c.length + 1 - p.length)).find? (fun i => decide ((c.drop i).take p.length = p))

/-- Lines 185-186 of src/common.py: `while c[pos] > '9' or c[pos] < '0': pos += 1`,
scanning the suffix of the page starting at `pos`.  Returns the suffix starting
at the first digit; running off the end of the string is an `IndexError`. -/
def skipNonDigits : List Char → Except PyErr (List Char)
  | [] => .error .indexError
  | ch :: rest => if ch.isDigit then .ok (ch :: rest) else skipNonDigits rest

/-- Lines 187-189 of src/common.py:
`while '9' >= c[pos] >= '0' or c[pos] == '.': s += c[pos]; pos += 1`.
Collects the digit-or-dot run; running off the end is an `IndexError`. -/
def collectDigits : List Char → Except PyErr (List Char)
  | [] => .error .indexError
  | ch :: rest =>
    if ch.isDigit || ch == '.' then (collectDigits rest).map (fun acc => ch :: acc)
    else .ok []

/-- Lines 172-192 of src/common.py, `web_scraping(url, prefixes)`.  The network
is abstracted as `http : ℕ → Bool × String`, giving `(r.ok, r.content)` of the
n-th `requests.get` for this url; the code retries once when the first
response is not ok (lines 174-176) and then scans whichever content it has. -/
def web_scraping (http : ℕ → Bool × String) (prefixes : List String) : Except PyErr String :=
  let r0 := http 0
  let r := if r0.1 then r0 else http 1
  let c := r.2.data
  match prefixes.findSome? (fun p => strFind c p.data) with
  | some pos =>
    match skipNonDigits (c.drop pos) with
    | .error e => .error e
    | .ok suffix =>
      match collectDigits suffix with
      | .error e => .error e
      | .ok digits => .ok (String.mk digits)
  | none => .error (.exception "symbol not found ")

/-- Python `int(s)` on the scraped string: succeeds only on a nonempty
all-digit string (a collected `'.'` makes `int` raise `ValueError`). -/
def pyInt (s : String) : Except PyErr Int :=
  if s.data ≠ [] ∧ s.data.all Char.isDigit then
    .ok (s.data.foldl (fun acc ch => acc * 10 + (ch.toNat - 48)) 0)
  else .error .valueError

/-- Lines 113-133 of src/common.py, `filter_low_volume_series(all_series)`.
The volume cache file `data/volumes.json` is the association list `volumes`;
the network is `http ticker attempt`.  For a ticker missing from the cache the
code fetches `int(web_scraping(url, ['regularMarketVolume']))` with no
try/except around it, so a raised exception propagates out of the whole call.
The cache-overwrite bookkeeping (lines 119, 127, 130-132) only rewrites the
cache file and does not affect the returned dict, so it is not modelled. -/
def filter_low_volume_series (volumes : List (String × Int)) (http : String → ℕ → Bool × String) :
    List (String × List ℚ) → Except PyErr (List (String × List ℚ))
  | [] => .ok []
  | (ticker, series) :: rest =>
    let vol : Except PyErr Int :=
      match List.lookup ticker volumes with
      | some v => .ok v
      | none =>
        match web_scraping (http ticker) ["regularMarketVolume"] with
        | .error e => .error e
        | .ok str => pyInt str
    match vol with
    | .error e => .error e
    | .ok volume =>
      match filter_low_volume_series volumes http rest with
      | .error e => .error e
      | .ok res =>
        .ok (if VOLUME_FILTER_THRESHOLD ≤ volume then (ticker, series) :: res else res)

/-- Comparison `a >= b` on `(avg_return, ticker)` pairs under Python's
lexicographic tuple order; `buy_symbols.sort(reverse=True)` sorts into
descending tuple order, which is exactly sorting by this total preorder. -/
def symGe (a b : ℚ × String) : Prop := b.1 < a.1 ∨ (a.1 = b.1 ∧ b.2 ≤ a.2)

instance symGeDecidable : DecidableRel symGe :=
  fun a b => inferInstanceAs (Decidable (b.1 < a.1 ∨ (a.1 = b.1 ∧ b.2 ≤ a.2)))

/-- Line 157 of src/common.py: the contents of `buy_symbols` after
`buy_symbols.sort(reverse=True)`. -/
def sortedSyms (buySymbols : List (ℚ × String)) : List (ℚ × String) :=
  List.insertionSort symGe buySymbols

/-- Lines 158-160 of src/common.py: final value of `n_symbols` after
`while n_symbols < min(MAX_STOCK_PICK, len(buy_symbols)) and buy_symbols[n_symbols][0] >= 0.01`,
on the already-sorted list: the length of the longest prefix of the first
`min(MAX_STOCK_PICK, len)` entries whose returns are all `>= 0.01`. -/
def nSymbols (sorted : List (ℚ × String)) : ℕ :=
  ((sorted.take (min MAX_STOCK_PICK sorted.length)).takeWhile
    (fun p => decide (1 / 100 ≤ p.1))).length

/-- Lines 156-169 of src/common.py, `get_trading_list(buy_symbols)`.  Since
`buy_symbols.sort(reverse=True)` mutates the caller's list, the embedding
returns the post-call contents of `buy_symbols` (first component) alongside
the returned `trading_list` (second component). -/
def get_trading_list (buySymbols : List (ℚ × String)) : List (ℚ × String) × List (String × ℚ) :=
  let sorted := sortedSyms buySymbols
  let n := nSymbols sorted
  let ac := ((sorted.take n).map Prod.fst).sum
  let trading_list := (sorted.take n).map (fun p => (p.2, 3 / 4 / (n : ℚ) + 1 / 4 * p.1 / ac))
  (sorted, trading_list)

/-! ### General helper lemmas -/

theorem le_foldl_max : ∀ (l : List ℚ) (a : ℚ), a ≤ l.foldl max a
  | [], _ => le_refl _
  | x :: t, a => le_trans (le_max_left a x) (le_foldl_max t (max a x))

theorem mem_le_foldl_max : ∀ (l : List ℚ) (a x : ℚ), x ∈ l → x ≤ l.foldl max a
  | x :: t, a, y, hy => by
    rcases List.mem_cons.mp hy with h | h
    · subst h
      exact le_trans (le_max_right a y) (le_foldl_max t (max a y))
    · exact mem_le_foldl_max t (max a x) y h

theorem foldl_max_mem : ∀ (l : List ℚ) (a : ℚ), l.foldl max a = a ∨ l.foldl max a ∈ l
  | [], a => Or.inl rfl
  | x :: t, a => by
    rcases foldl_max_mem t (max a x) with h | h
    · rcases max_cases a x with ⟨hm, _⟩ | ⟨hm, _⟩
      · exact Or.inl (by simpa [hm] using h)
      · rw [hm] at h
        exact Or.inr (by simp [List.foldl_cons, hm, h])
    · exact Or.inr (List.mem_cons_of_mem _ h)

theorem le_listMax (l : List ℚ) (x : ℚ) (hx : x ∈ l) : x ≤ listMax l := by
  cases l with
  | nil => cases hx
  | cons h t =>
    rcases List.mem_cons.mp hx with rfl | hmem
    · exact le_foldl_max t x
    · exact mem_le_foldl_max t h x hmem

theorem neg_one_lt_avg (l : List ℚ) (hne : l ≠ []) (h : ∀ x ∈ l, (-1 : ℚ) < x) :
    (-1 : ℚ) < l.sum / (l.length : ℚ) := by
  have hlen : (0 : ℚ) < (l.length : ℚ) := by
    have : 0 < l.length := List.length_pos.mpr hne
    exact_mod_cast this
  rw [lt_div_iff₀ hlen]
  have key : ∀ (m : List ℚ), (∀ x ∈ m, (-1 : ℚ) < x) → -(m.length : ℚ) ≤ m.sum := by
    intro m
    induction m with
    | nil => intro _; simp
    | cons a t ih =>
      intro hm
      have ha : (-1 : ℚ) < a := hm a (List.mem_cons_self a t)
      have ht := ih (fun x hx => hm x (List.mem_cons_of_mem a hx))
      simp only [List.sum_cons, List.length_cons]
      push_cast
      linarith
  cases l with
  | nil => exact absurd rfl hne
  | cons a t =>
    have ha : (-1 : ℚ) < a := h a (List.mem_cons_self a t)
    have ht := key t (fun x hx => h x (List.mem_cons_of_mem a hx))
    simp only [List.sum_cons, List.length_cons]
    push_cast
    linarith

theorem takeWhile_length_ge {α : Type} (p : α → Bool) :
    ∀ (l : List α) (m : ℕ), m ≤ l.length → (∀ x ∈ l.take m, p x = true) →
      m ≤ (l.takeWhile p).length := by
  intro l
  induction l with
  | nil => intro m hm _; simpa using hm
  | cons a t ih =>
    intro m hm hall
    cases m with
    | zero => exact Nat.zero_le _
    | succ m' =>
      have hpa : p a = true := hall a (by simp)
      have hrest : ∀ x ∈ t.take m', p x = true := fun x hx =>
        hall x (by simp [List.take_succ_cons, hx])
      have := ih m' (by simpa using hm) hrest
      simpa [List.takeWhile_cons, hpa] using Nat.succ_le_succ this

theorem takeWhile_eq_take_length {α : Type} (p : α → Bool) (l : List α) :
    l.takeWhile p = l.take (l.takeWhile p).length :=
  List.prefix_iff_eq_take.mp (List.takeWhile_prefix p)

/-! ### Facts about the embedded calibration loop -/

theorem loopBody_of_empty (s : List ℚ) (dt pt : List ℕ) (st : LoopState) (k : ℕ)
    (hg : (gainsFor s dt pt k).length = 0) : loopBody s dt pt st k = (st, false) := by
  simp [loopBody, hg]

theorem loopBody_maxAvg (s : List ℚ) (dt pt : List ℕ) (st : LoopState) (k : ℕ)
    (hg : (gainsFor s dt pt k).length ≠ 0) :
    (loopBody s dt pt st k).1.maxAvg = max st.maxAvg (avgFor s dt pt k) := by
  unfold loopBody avgFor
  by_cases hlt : st.maxAvg < (gainsFor s dt pt k).sum / ((gainsFor s dt pt k).length : ℚ)
  · simp [hg, hlt, max_eq_right (le_of_lt hlt)]
  · simp [hg, hlt, max_eq_left (le_of_not_lt hlt)]

theorem loopBody_nPick (s : List ℚ) (dt pt : List ℕ) (st : LoopState) (k : ℕ) :
    (loopBody s dt pt st k).1.nPick = st.nPick ∨ (loopBody s dt pt st k).1.nPick = k := by
  unfold loopBody
  by_cases hg : (gainsFor s dt pt k).length = 0
  · simp [hg]
  · by_cases hlt : st.maxAvg < (gainsFor s dt pt k).sum / ((gainsFor s dt pt k).length : ℚ)
    · simp [hg, hlt]
    · simp [hg, hlt]

theorem loopBody_break_tol (s : List ℚ) (dt pt : List ℕ) (st st1 : LoopState) (k : ℕ)
    (hb : loopBody s dt pt st k = (st1, true)) : st1.tol = 0 := by
  unfold loopBody at hb
  by_cases hg : (gainsFor s dt pt k).length = 0
  · simp [hg] at hb
  · by_cases hlt : st.maxAvg < (gainsFor s dt pt k).sum / ((gainsFor s dt pt k).length : ℚ)
    · simp only [hg, if_false, hlt, if_true] at hb
      obtain ⟨h1, h2⟩ := Prod.mk.injEq .. ▸ hb
      rw [← h1]
      simpa using h2
    · simp only [hg, if_false, hlt] at hb
      obtain ⟨h1, h2⟩ := Prod.mk.injEq .. ▸ hb
      rw [← h1]
      simpa using h2

theorem loopBody_break_nonempty (s : List ℚ) (dt pt : List ℕ) (st st1 : LoopState) (k : ℕ)
    (hb : loopBody s dt pt st k = (st1, true)) : (gainsFor s dt pt k).length ≠ 0 := by
  intro hg
  rw [loopBody_of_empty s dt pt st k hg] at hb
  exact Bool.false_ne_true (congrArg Prod.snd hb)

theorem runLoop_cons_empty (s : List ℚ) (dt pt : List ℕ) (st : LoopState) (k : ℕ)
    (rest : List ℕ) (hg : (gainsFor s dt pt k).length = 0) :
    runLoop s dt pt st (k :: rest) =
      ((runLoop s dt pt st rest).1, k :: (runLoop s dt pt st rest).2) := by
  simp [runLoop, loopBody_of_empty s dt pt st k hg]

theorem runLoop_cons_break (s : List ℚ) (dt pt : List ℕ) (st st1 : LoopState) (k : ℕ)
    (rest : List ℕ) (hb : loopBody s dt pt st k = (st1, true)) :
    runLoop s dt pt st (k :: rest) = (st1, [k]) := by
  simp [runLoop, hb]

theorem runLoop_cons_continue (s : List ℚ) (dt pt : List ℕ) (st st1 : LoopState) (k : ℕ)
    (rest : List ℕ) (hb : loopBody s dt pt st k = (st1, false)) :
    runLoop s dt pt st (k :: rest) =
      ((runLoop s dt pt st1 rest).1, k :: (runLoop s dt pt st1 rest).2) := by
  simp [runLoop, hb]

theorem runLoop_no_break (s : List ℚ) (dt pt : List ℕ) :
    ∀ (ks : List ℕ) (st : LoopState), (runLoop s dt pt st ks).1.tol ≠ 0 →
      (runLoop s dt pt st ks).2 = ks := by
  intro ks
  induction ks with
  | nil => intro st _; rfl
  | cons k rest ih =>
    intro st htol
    cases hb : loopBody s dt pt st k with
    | mk st1 brk =>
      cases brk with
      | true =>
        exfalso
        apply htol
        rw [runLoop_cons_break s dt pt st st1 k rest hb]
        exact loopBody_break_tol s dt pt st st1 k hb
      | false =>
        rw [runLoop_cons_continue s dt pt st st1 k rest hb] at htol ⊢
        simp only [List.cons.injEq, true_and]
        exact ih st1 htol

theorem runLoop_nPick_mem (s : List ℚ) (dt pt : List ℕ) :
    ∀ (ks : List ℕ) (st : LoopState),
      (runLoop s dt pt st ks).1.nPick = st.nPick ∨ (runLoop s dt pt st ks).1.nPick ∈ ks := by
  intro ks
  induction ks with
  | nil => intro st; exact Or.inl rfl
  | cons k rest ih =>
    intro st
    cases hb : loopBody s dt pt st k with
    | mk st1 brk =>
      have hbody := loopBody_nPick s dt pt st k
      rw [hb] at hbody
      cases brk with
      | true =>
        rw [runLoop_cons_break s dt pt st st1 k rest hb]
        rcases hbody with h | h
        · exact Or.inl h
        · exact Or.inr (List.mem_cons.mpr (Or.inl h))
      | false =>
        rw [runLoop_cons_continue s dt pt st st1 k rest hb]
        rcases ih st1 with h | h
        · rw [h]
          rcases hbody with h2 | h2
          · exact Or.inl h2
          · exact Or.inr (List.mem_cons.mpr (Or.inl h2))
        · exact Or.inr (List.mem_cons_of_mem _ h)

theorem runLoop_maxAvg (s : List ℚ) (dt pt : List ℕ) :
    ∀ (ks : List ℕ) (st : LoopState),
      (runLoop s dt pt st ks).1.maxAvg =
        (avgsAlong s dt pt (runLoop s dt pt st ks).2).foldl max st.maxAvg := by
  intro ks
  induction ks with
  | nil => intro st; rfl
  | cons k rest ih =>
    intro st
    by_cases hg : (gainsFor s dt pt k).length = 0
    · have hg' : gainsFor s dt pt k = [] := List.length_eq_zero.mp hg
      rw [runLoop_cons_empty s dt pt st k rest hg]
      simp only [avgsAlong, List.filterMap_cons, hg', List.length_nil, if_pos rfl]
      exact ih st
    · have hg' : gainsFor s dt pt k ≠ [] := fun h => hg (by rw [h]; rfl)
      cases hb : loopBody s dt pt st k with
      | mk st1 brk =>
        have hmax : st1.maxAvg = max st.maxAvg (avgFor s dt pt k) := by
          have := loopBody_maxAvg s dt pt st k hg
          rw [hb] at this
          exact this
        cases brk with
        | true =>
          rw [runLoop_cons_break s dt pt st st1 k rest hb]
          simp [avgsAlong, hg', hmax]
        | false =>
          rw [runLoop_cons_continue s dt pt st st1 k rest hb]
          simp only [avgsAlong, List.filterMap_cons, hg, if_neg hg]
          rw [ih st1]
          simp [avgsAlong, List.foldl_cons, hmax]

theorem runLoop_const_of_no_avgs (s : List ℚ) (dt pt : List ℕ) :
    ∀ (ks : List ℕ) (st : LoopState),
      avgsAlong s dt pt (runLoop s dt pt st ks).2 = [] → (runLoop s dt pt st ks).1 = st := by
  intro ks
  induction ks with
  | nil => intro st _; rfl
  | cons k rest ih =>
    intro st hempty
    by_cases hg : (gainsFor s dt pt k).length = 0
    · have hg' : gainsFor s dt pt k = [] := List.length_eq_zero.mp hg
      rw [runLoop_cons_empty s dt pt st k rest hg] at hempty ⊢
      simp only [avgsAlong, List.filterMap_cons, hg', List.length_nil, if_pos rfl] at hempty
      exact ih st hempty
    · exfalso
      have hg' : gainsFor s dt pt k ≠ [] := fun h => hg (by rw [h]; rfl)
      cases hb : loopBody s dt pt st k with
      | mk st1 brk =>
        cases brk with
        | true =>
          rw [runLoop_cons_break s dt pt st st1 k rest hb] at hempty
          simp [avgsAlong, hg'] at hempty
        | false =>
          rw [runLoop_cons_continue s dt pt st st1 k rest hb] at hempty
          simp [avgsAlong, hg'] at hempty

theorem mem_avgsAlong (s : List ℚ) (dt pt : List ℕ) (v : List ℕ) (x : ℚ)
    (hx : x ∈ avgsAlong s dt pt v) :
    ∃ k ∈ v, (gainsFor s dt pt k).length ≠ 0 ∧ x = avgFor s dt pt k := by
  obtain ⟨k, hk, hfk⟩ := List.mem_filterMap.mp hx
  by_cases hg : (gainsFor s dt pt k).length = 0
  · rw [if_pos hg] at hfk
    cases hfk
  · rw [if_neg hg] at hfk
    exact ⟨k, hk, hg, (Option.some.injEq _ _ ▸ hfk).symm⟩

/-! ### Facts about the ranking and the dip events -/

instance rankLeTotal (dp : List ℚ) : IsTotal ℕ (rankLe dp) := by
  constructor
  intro i j
  rcases lt_trichotomy (dp.getD i 0) (dp.getD j 0) with h | h | h
  · exact Or.inr (Or.inl h)
  · rcases le_total i j with hij | hij
    · exact Or.inl (Or.inr ⟨h, hij⟩)
    · exact Or.inr (Or.inr ⟨h.symm, hij⟩)
  · exact Or.inl (Or.inl h)

instance rankLeTrans (dp : List ℚ) : IsTrans ℕ (rankLe dp) := by
  constructor
  intro i j l hij hjl
  rcases hij with h1 | ⟨h1, h1'⟩
  · rcases hjl with h2 | ⟨h2, _⟩
    · exact Or.inl (lt_trans h2 h1)
    · exact Or.inl (h2 ▸ h1)
  · rcases hjl with h2 | ⟨h2, h2'⟩
    · exact Or.inl (h1 ▸ h2)
    · exact Or.inr ⟨h1.trans h2, le_trans h1' h2'⟩

theorem rankLe_depth_le (dp : List ℚ) (i j : ℕ) (h : rankLe dp i j) :
    dp.getD j 0 ≤ dp.getD i 0 := by
  rcases h with h | ⟨h, _⟩
  · exact le_of_lt h
  · exact le_of_eq h.symm

theorem pickTi_sorted (dp : List ℚ) : List.Sorted (rankLe dp) (pickTi dp) :=
  List.sorted_insertionSort (rankLe dp) (List.range dp.length)

theorem pickTi_length (dp : List ℚ) : (pickTi dp).length = dp.length := by
  unfold pickTi
  rw [List.length_insertionSort, List.length_range]

theorem pickTi_mem_lt (dp : List ℚ) (j : ℕ) (hj : j ∈ pickTi dp) : j < dp.length := by
  have hperm := List.perm_insertionSort (rankLe dp) (List.range dp.length)
  exact List.mem_range.mp (hperm.mem_iff.mp hj)

theorem downPercent_length (s : List ℚ) : (downPercent s).length = (downT s).length := by
  unfold downPercent
  rw [List.length_map]

theorem mem_downT (s : List ℚ) (t : ℕ) (ht : t ∈ downT s) :
    DATE_RANGE ≤ t ∧ t < s.length ∧ s.getD t 0 ≤ s.getD (t - 1) 0 := by
  unfold downT at ht
  obtain ⟨i, hi, rfl⟩ := List.mem_map.mp ht
  obtain ⟨hir, hcond⟩ := List.mem_filter.mp hi
  obtain ⟨hlo, hhi⟩ := List.mem_range'_1.mp hir
  have hcond' : s.getD (i + 1) 0 ≤ s.getD i 0 := of_decide_eq_true hcond
  simp only [DATE_RANGE] at hlo hhi ⊢
  refine ⟨by omega, by omega, by simpa using hcond'⟩

theorem getD_pos (s : List ℚ) (hpos : ∀ x ∈ s, 0 < x) (i : ℕ) (hi : i < s.length) :
    0 < s.getD i 0 := by
  rw [List.getD_eq_getElem s 0 hi]
  exact hpos _ (s.getElem_mem hi)

theorem sliceMax_ge_prev (s : List ℚ) (t : ℕ) (h5 : DATE_RANGE ≤ t) (hlt : t < s.length) :
    s.getD (t - 1) 0 ≤ sliceMax s (t - DATE_RANGE) t := by
  unfold sliceMax
  apply le_listMax
  have hlen : t - (t - DATE_RANGE) = DATE_RANGE := by simp only [DATE_RANGE] at h5 ⊢; omega
  rw [hlen]
  have h4 : 4 < ((s.drop (t - DATE_RANGE)).take DATE_RANGE).length := by
    rw [List.length_take, List.length_drop]
    simp only [DATE_RANGE] at h5 ⊢
    omega
  refine List.mem_iff_getElem.mpr ⟨4, h4, ?_⟩
  have hidx : t - DATE_RANGE + 4 = t - 1 := by simp only [DATE_RANGE] at h5 ⊢; omega
  rw [List.getElem_take, List.getElem_drop]
  simp only [hidx]
  exact (List.getD_eq_getElem s 0 (by simp only [DATE_RANGE] at h5; omega)).symm

theorem gains_gt_neg_one (s : List ℚ) (hpos : ∀ x ∈ s, 0 < x) (dt pt : List ℕ) (k : ℕ) :
    ∀ g ∈ gainsFor s dt pt k, (-1 : ℚ) < g := by
  intro g hg
  unfold gainsFor at hg
  obtain ⟨t, ht, rfl⟩ := List.mem_map.mp hg
  have htlt : t + 1 < s.length := of_decide_eq_true (List.mem_filter.mp ht).2
  have hpt : 0 < s.getD t 0 := getD_pos s hpos t (by omega)
  have hpt1 : 0 < s.getD (t + 1) 0 := getD_pos s hpos (t + 1) htlt
  rw [lt_div_iff₀ hpt]
  linarith

theorem floatMin_lt_neg_one : floatMin < -1 := by
  unfold floatMin
  have h1 : (2 : ℚ) ^ 971 < 2 ^ 1024 := by
    exact pow_lt_pow_right₀ (by norm_num) (by norm_num)
  have h2 : (1 : ℚ) < 2 ^ 1024 - 2 ^ 971 := by
    have : (2 : ℚ) ^ 971 ≥ 1 := one_le_pow₀ (by norm_num)
    have : (2 : ℚ) ^ 1024 ≥ 2 ^ 971 * 2 := by
      calc (2 : ℚ) ^ 1024 = 2 ^ 971 * 2 ^ 53 := by ring
        _ ≥ 2 ^ 971 * 2 := by
            have : (2 : ℚ) ^ 53 ≥ 2 := by
              calc (2 : ℚ) ^ 53 ≥ 2 ^ 1 := pow_le_pow_right₀ (by norm_num) (by norm_num)
                _ = 2 := by norm_num
            nlinarith [pow_pos (show (0:ℚ) < 2 by norm_num) 971]
    nlinarith [pow_pos (show (0:ℚ) < 2 by norm_num) 971]
  linarith

/-! ### Facts about the portfolio builder -/

instance symGeTotal : IsTotal (ℚ × String) symGe := by
  constructor
  intro a b
  rcases lt_trichotomy a.1 b.1 with h | h | h
  · exact Or.inr (Or.inl h)
  · rcases le_total a.2 b.2 with hs | hs
    · exact Or.inr (Or.inr ⟨h.symm, hs⟩)
    · exact Or.inl (Or.inr ⟨h, hs⟩)
  · exact Or.inl (Or.inl h)

instance symGeTrans : IsTrans (ℚ × String) symGe := by
  constructor
  intro a b c hab hbc
  rcases hab with h1 | ⟨h1, h1'⟩
  · rcases hbc with h2 | ⟨h2, _⟩
    · exact Or.inl (lt_trans h2 h1)
    · exact Or.inl (h2 ▸ h1)
  · rcases hbc with h2 | ⟨h2, h2'⟩
    · exact Or.inl (h1 ▸ h2)
    · exact Or.inr ⟨h1.trans h2, le_trans h2' h1'⟩

theorem sortedSyms_sorted (l : List (ℚ × String)) : List.Sorted symGe (sortedSyms l) :=
  List.sorted_insertionSort symGe l

theorem sortedSyms_perm (l : List (ℚ × String)) : (sortedSyms l).Perm l :=
  List.perm_insertionSort symGe l

theorem nSymbols_le (sorted : List (ℚ × String)) :
    nSymbols sorted ≤ min MAX_STOCK_PICK sorted.length := by
  unfold nSymbols
  calc ((sorted.take (min MAX_STOCK_PICK sorted.length)).takeWhile
          (fun p => decide (1 / 100 ≤ p.1))).length
      ≤ (sorted.take (min MAX_STOCK_PICK sorted.length)).length :=
        (List.takeWhile_prefix _).length_le
    _ = min (min MAX_STOCK_PICK sorted.length) sorted.length := List.length_take _ _
    _ ≤ min MAX_STOCK_PICK sorted.length := min_le_left _ _

theorem take_nSymbols_eq (sorted : List (ℚ × String)) :
    sorted.take (nSymbols sorted) =
      (sorted.take (min MAX_STOCK_PICK sorted.length)).takeWhile
        (fun p => decide (1 / 100 ≤ p.1)) := by
  have hpre : (sorted.take (min MAX_STOCK_PICK sorted.length)).takeWhile
      (fun p => decide (1 / 100 ≤ p.1)) <+: sorted :=
    (List.takeWhile_prefix _).trans (List.take_prefix _ _)
  exact (List.prefix_iff_eq_take.mp hpre).symm

theorem mem_take_nSymbols (sorted : List (ℚ × String)) (p : ℚ × String)
    (hp : p ∈ sorted.take (nSymbols sorted)) : 1 / 100 ≤ p.1 := by
  rw [take_nSymbols_eq] at hp
  simpa using List.mem_takeWhile_imp hp

theorem sum_map_proportion (L : List (ℚ × String)) (c e a : ℚ) :
    (L.map (fun p => c + e * p.1 / a)).sum = L.length * c + e * (L.map Prod.fst).sum / a := by
  induction L with
  | nil => simp
  | cons x t ih =>
    simp only [List.map_cons, List.sum_cons, ih, List.length_cons]
    push_cast
    ring

/-! ### Claim theorems -/

/-- C2: `get_buy_signal` agrees everywhere with the spec-described
BuySignalEvaluator: `currentPrice >= series[-1]` yields exactly `(0, false)`
with no calibration, and otherwise the result is `(averageRebound, isBuy)`
with `currentDepth = (max(series[-5:]) - currentPrice) / max(series[-5:])`
and `isBuy = currentDepth > depthThreshold`, the calibration coming from
`get_picked_points` on the series. -/
theorem buy_signal_matches_spec (s : List ℚ) (price : ℚ) :
    get_buy_signal s price = evaluate_spec s price := by
  unfold get_buy_signal evaluate_spec estimate
  cases hL : s.getLast? with
  | none => rfl
  | some last =>
    by_cases hp : last ≤ price
    · simp [hp, ge_iff_le]
    · cases hg : get_picked_points s with
      | error e => simp [hp, hg, Except.map, ge_iff_le]
      | ok r =>
        obtain ⟨picks, avg, thr⟩ := r
        simp [hp, hg, Except.map, ge_iff_le, gt_iff_lt]

/-- C8: the garbage filter keeps exactly the tickers whose series satisfies
`max(series) * 0.7 <= series[-1]`, with the kept series unchanged. -/
theorem garbage_filter_characterization (m : List (String × List ℚ))
    (hne : ∀ p ∈ m, p.2 ≠ []) (t : String) (s : List ℚ) :
    (t, s) ∈ filter_garbage_series m ↔
      ((t, s) ∈ m ∧ listMax s * GARBAGE_FILTER_THRESHOLD ≤ s.getLastD 0) := by
  unfold filter_garbage_series
  rw [List.mem_filter]
  simp

theorem garbage_filter_characterization_witness :
    ("GOOD", ([100, 150] : List ℚ)) ∈ filter_garbage_series
        [("GOOD", ([100, 150] : List ℚ)), ("BAD", [200, 130])] ∧
    ("BAD", ([200, 130] : List ℚ)) ∉ filter_garbage_series
        [("GOOD", ([100, 150] : List ℚ)), ("BAD", [200, 130])] := by
  constructor
  · exact (garbage_filter_characterization _ (by simp) "GOOD" [100, 150]).mpr
      ⟨by norm_num, by norm_num [listMax, max_def, GARBAGE_FILTER_THRESHOLD]⟩
  · intro hbad
    have h := (garbage_filter_characterization _ (by simp) "BAD" [200, 130]).mp hbad
    norm_num [listMax, max_def, GARBAGE_FILTER_THRESHOLD] at h

/-- C10: `get_trading_list` mutates its argument: after the call the caller's
`buy_symbols` list is a permutation of the original reordered into
`(expectedReturn, ticker)` lexicographically descending order (the only
modification is this in-place sort, so the contents are preserved). -/
theorem get_trading_list_sorts_in_place (l : List (ℚ × String)) :
    ((get_trading_list l).1).Perm l ∧ List.Sorted symGe (get_trading_list l).1 := by
  have h1 : (get_trading_list l).1 = sortedSyms l := rfl
  rw [h1]
  exact ⟨sortedSyms_perm l, sortedSyms_sorted l⟩

theorem get_picked_points_of_no_dips (s : List ℚ) (h : downT s = []) :
    get_picked_points s = .error .indexError := by
  have hdp : downPercent s = [] := by simp [downPercent, h]
  have hpt : pickTi (downPercent s) = [] := by rw [hdp]; rfl
  have hfs : finalState s = initState := by
    unfold finalState calibLoop
    rw [hpt]
    rfl
  unfold get_picked_points
  simp only [hfs, hpt, hdp, h]
  rfl

/-- C4 (amended): for every strictly increasing series there are zero
DipEvents, and with zero DipEvents `get_picked_points` raises `IndexError`
(from reading `pick_ti[-1]` off the empty ranking), not the spec's
`DegenerateCalibrationError`, which no code in src/ defines or raises.
With exactly one DipEvent the code instead returns normally.  A monotone
non-decreasing series need not have zero DipEvents, since equal consecutive
prices satisfy the dip condition `series[i] >= series[i+1]`. -/
theorem degenerate_calibration_raises_index_error (s : List ℚ)
    (hmono : ∀ i ∈ List.range (s.length - 1), s.getD i 0 < s.getD (i + 1) 0) :
    downT s = [] ∧ get_picked_points s = .error .indexError := by
  have hdt : downT s = [] := by
    unfold downT
    have hfil : ∀ i ∈ List.range' (DATE_RANGE - 1) (s.length - DATE_RANGE),
        ¬ (decide (s.getD (i + 1) 0 ≤ s.getD i 0) = true) := by
      intro i hir
      obtain ⟨hlo, hhi⟩ := List.mem_range'_1.mp hir
      have hi : i ∈ List.range (s.length - 1) := by
        apply List.mem_range.mpr
        simp only [DATE_RANGE] at hlo hhi
        omega
      have hlt := hmono i hi
      simp only [decide_eq_true_eq]
      exact not_le.mpr hlt
    rw [List.filter_eq_nil_iff.mpr hfil]
    rfl
  exact ⟨hdt, get_picked_points_of_no_dips s hdt⟩

theorem degenerate_calibration_raises_index_error_witness :
    downT [1, 2, 3, 4, 5, 6, 7] = [] ∧
    get_picked_points [1, 2, 3, 4, 5, 6, 7] = .error .indexError :=
  degenerate_calibration_raises_index_error [1, 2, 3, 4, 5, 6, 7] (by
    intro i hi
    have h6 : i < 6 := by simpa using List.mem_range.mp hi
    interval_cases i <;> norm_num [List.getD])

/-- C4 (counterexample): on the strictly increasing series `[1,...,7]` —
which is in particular monotonically non-decreasing — `get_picked_points`
raises `IndexError`, not the `DegenerateCalibrationError` the claim
promises; and the constant series `[5,...,5]`, also monotonically
non-decreasing, does not have zero DipEvents. -/
theorem c4_degenerate_counterexample :
    get_picked_points [1, 2, 3, 4, 5, 6, 7] = .error .indexError ∧
    get_picked_points [1, 2, 3, 4, 5, 6, 7] ≠ .error .degenerateCalibration ∧
    downT [5, 5, 5, 5, 5, 5, 5] ≠ [] := by
  have h : downT [1, 2, 3, 4, 5, 6, 7] = [] := by
    norm_num [downT, DATE_RANGE, List.range']
  refine ⟨get_picked_points_of_no_dips _ h, ?_, ?_⟩
  · rw [get_picked_points_of_no_dips _ h]
    simp
  · have h2 : downT [5, 5, 5, 5, 5, 5, 5] = [5, 6] := by
      norm_num [downT, DATE_RANGE, List.range']
    rw [h2]
    simp

/-- C6: the accepted symbols of `get_trading_list` are exactly the maximal
prefix of the descending-sorted list whose length is at most `MAX_STOCK_PICK`
and whose members all have `expectedReturn >= 0.01` (a prefix-stop, captured
by the maximality conjunct); with zero accepted symbols the returned trading
list is empty (and no division by `totalReturn` occurs: the embedding builds
the output by mapping over the empty accepted prefix). -/
theorem trading_list_prefix_acceptance (l : List (ℚ × String)) :
    nSymbols (sortedSyms l) ≤ min MAX_STOCK_PICK (sortedSyms l).length ∧
    (∀ p ∈ (sortedSyms l).take (nSymbols (sortedSyms l)), 1 / 100 ≤ p.1) ∧
    (∀ m, m ≤ min MAX_STOCK_PICK (sortedSyms l).length →
      (∀ p ∈ (sortedSyms l).take m, 1 / 100 ≤ p.1) → m ≤ nSymbols (sortedSyms l)) ∧
    (nSymbols (sortedSyms l) = 0 → (get_trading_list l).2 = []) := by
  refine ⟨nSymbols_le _, fun p hp => mem_take_nSymbols _ p hp, ?_, ?_⟩
  · intro m hm hall
    unfold nSymbols
    apply takeWhile_length_ge
    · simp only [List.length_take]
      omega
    · intro x hx
      rw [List.take_take] at hx
      rw [min_eq_left hm] at hx
      simpa using hall x hx
  · intro hn
    simp [get_trading_list, hn]

theorem trading_list_prefix_acceptance_witness :
    1 ≤ nSymbols (sortedSyms [((2 : ℚ)/100, "A"), ((3 : ℚ)/100, "B")]) :=
  (trading_list_prefix_acceptance [((2 : ℚ)/100, "A"), ((3 : ℚ)/100, "B")]).2.2.1 1
    (by norm_num [sortedSyms, List.insertionSort, List.orderedInsert, symGe, MAX_STOCK_PICK])
    (by norm_num [sortedSyms, List.insertionSort, List.orderedInsert, symGe])

/-- C5: whenever at least one symbol is accepted, every proportion in the
trading list lies in `(0, 1]`, the proportions sum to exactly
`0.75 + 0.25 = 1` in exact arithmetic, and with a single accepted symbol the
proportion is exactly `1`. -/
theorem trading_list_proportions (l : List (ℚ × String))
    (h : 1 ≤ nSymbols (sortedSyms l)) :
    (∀ p ∈ (get_trading_list l).2, 0 < p.2 ∧ p.2 ≤ 1) ∧
    ((get_trading_list l).2.map Prod.snd).sum = 1 ∧
    (nSymbols (sortedSyms l) = 1 → ∀ p ∈ (get_trading_list l).2, p.2 = 1) := by
  have htl : (get_trading_list l).2 =
      ((sortedSyms l).take (nSymbols (sortedSyms l))).map
        (fun p => (p.2, 3 / 4 / ((nSymbols (sortedSyms l) : ℚ)) +
          1 / 4 * p.1 / ((((sortedSyms l).take (nSymbols (sortedSyms l))).map Prod.fst).sum))) :=
    rfl
  have hlen : ((sortedSyms l).take (nSymbols (sortedSyms l))).length = nSymbols (sortedSyms l) := by
    rw [List.length_take]
    have := nSymbols_le (sortedSyms l)
    omega
  have hmem : ∀ p ∈ (sortedSyms l).take (nSymbols (sortedSyms l)), 1 / 100 ≤ p.1 :=
    fun p hp => mem_take_nSymbols _ p hp
  have haccne : (sortedSyms l).take (nSymbols (sortedSyms l)) ≠ [] := by
    intro h0
    rw [h0] at hlen
    simp at hlen
    omega
  have hacpos : 0 < ((((sortedSyms l).take (nSymbols (sortedSyms l))).map Prod.fst).sum) := by
    apply List.sum_pos
    · intro x hx
      obtain ⟨p, hp, rfl⟩ := List.mem_map.mp hx
      exact lt_of_lt_of_le (by norm_num) (hmem p hp)
    · intro hmap
      apply haccne
      simpa using hmap
  have hnpos : (0 : ℚ) < ((nSymbols (sortedSyms l) : ℚ)) := by
    have h0 : 0 < nSymbols (sortedSyms l) := h
    exact_mod_cast h0
  have hn1 : (1 : ℚ) ≤ ((nSymbols (sortedSyms l) : ℚ)) := by exact_mod_cast h
  refine ⟨?_, ?_, ?_⟩
  · intro p hp
    rw [htl] at hp
    obtain ⟨q, hq, rfl⟩ := List.mem_map.mp hp
    have hq1 : 0 < q.1 := lt_of_lt_of_le (by norm_num) (hmem q hq)
    constructor
    · exact add_pos (div_pos (by norm_num) hnpos)
        (div_pos (mul_pos (by norm_num) hq1) hacpos)
    · have h1 : 3 / 4 / ((nSymbols (sortedSyms l) : ℚ)) ≤ 3 / 4 := by
        rw [div_le_iff₀ hnpos]
        nlinarith
      have hqac : q.1 ≤ (((sortedSyms l).take (nSymbols (sortedSyms l))).map Prod.fst).sum := by
        apply List.single_le_sum
        · intro x hx
          obtain ⟨r, hr, rfl⟩ := List.mem_map.mp hx
          exact le_trans (by norm_num) (hmem r hr)
        · exact List.mem_map_of_mem Prod.fst hq
      have h2 : 1 / 4 * q.1 / ((((sortedSyms l).take (nSymbols (sortedSyms l))).map Prod.fst).sum)
          ≤ 1 / 4 := by
        rw [div_le_iff₀ hacpos]
        nlinarith
      simp only
      linarith
  · rw [htl, List.map_map]
    have hcomp : (Prod.snd ∘ fun p : ℚ × String => (p.2,
        3 / 4 / ((nSymbols (sortedSyms l) : ℚ)) +
          1 / 4 * p.1 / ((((sortedSyms l).take (nSymbols (sortedSyms l))).map Prod.fst).sum))) =
        (fun p : ℚ × String => 3 / 4 / ((nSymbols (sortedSyms l) : ℚ)) +
          1 / 4 * p.1 / ((((sortedSyms l).take (nSymbols (sortedSyms l))).map Prod.fst).sum)) :=
      rfl
    rw [hcomp, sum_map_proportion, hlen]
    have e1 : ((nSymbols (sortedSyms l) : ℚ)) * (3 / 4 / ((nSymbols (sortedSyms l) : ℚ))) = 3 / 4 := by
      rw [mul_comm, div_mul_cancel₀ _ (ne_of_gt hnpos)]
    have e2 : 1 / 4 * ((((sortedSyms l).take (nSymbols (sortedSyms l))).map Prod.fst).sum) /
        ((((sortedSyms l).take (nSymbols (sortedSyms l))).map Prod.fst).sum) = 1 / 4 := by
      rw [mul_div_assoc, div_self (ne_of_gt hacpos), mul_one]
    rw [e1, e2]
    norm_num
  · intro h1 p hp
    rw [htl] at hp
    obtain ⟨q, hq, rfl⟩ := List.mem_map.mp hp
    have hq1 : 0 < q.1 := lt_of_lt_of_le (by norm_num) (hmem q hq)
    obtain ⟨x, hx⟩ := List.length_eq_one.mp (hlen.trans h1)
    have hqx : q = x := by
      rw [hx] at hq
      simpa using hq
    have hsum : (((sortedSyms l).take (nSymbols (sortedSyms l))).map Prod.fst).sum = q.1 := by
      rw [hx, hqx]
      simp
    simp only [hsum]
    simp only [h1, Nat.cast_one, div_one]
    rw [mul_div_assoc, div_self (ne_of_gt hq1)]
    norm_num

theorem trading_list_proportions_witness :
    ((get_trading_list [((2 : ℚ)/100, "A")]).2.map Prod.snd).sum = 1 ∧
    (∀ p ∈ (get_trading_list [((2 : ℚ)/100, "A")]).2, p.2 = 1) := by
  have hn : nSymbols (sortedSyms [((2 : ℚ)/100, "A")]) = 1 := by
    norm_num [nSymbols, sortedSyms, List.insertionSort, List.orderedInsert,
      MAX_STOCK_PICK, List.takeWhile]
  have H := trading_list_proportions [((2 : ℚ)/100, "A")] (by rw [hn])
  exact ⟨H.2.1, H.2.2 hn⟩

/-- C7: with positive prices, every dip depth computed at line 40 of
src/common.py lies in the interval `[0, 1)`. -/
theorem dip_depth_in_unit_interval (s : List ℚ) (hpos : ∀ x ∈ s, 0 < x) :
    ∀ d ∈ downPercent s, 0 ≤ d ∧ d < 1 := by
  intro d hd
  unfold downPercent at hd
  obtain ⟨t, ht, rfl⟩ := List.mem_map.mp hd
  obtain ⟨h5, hlt, hle⟩ := mem_downT s t ht
  have hprev : 0 < s.getD (t - 1) 0 := by
    apply getD_pos s hpos
    omega
  have hcur : 0 < s.getD t 0 := getD_pos s hpos t hlt
  have hM : s.getD (t - 1) 0 ≤ sliceMax s (t - DATE_RANGE) t := sliceMax_ge_prev s t h5 hlt
  have hMpos : 0 < sliceMax s (t - DATE_RANGE) t := lt_of_lt_of_le hprev hM
  have hMge : s.getD t 0 ≤ sliceMax s (t - DATE_RANGE) t := le_trans hle hM
  constructor
  · exact div_nonneg (by linarith) (le_of_lt hMpos)
  · rw [div_lt_one hMpos]
    linarith

theorem dip_depth_in_unit_interval_witness :
    0 ≤ (1 : ℚ)/10 ∧ (1 : ℚ)/10 < 1 := by
  have hmem : (1 : ℚ)/10 ∈ downPercent [10, 10, 10, 10, 10, 9, 8, 9] := by
    have h1 : downT [10, 10, 10, 10, 10, 9, 8, 9] = [5, 6] := by
      norm_num [downT, DATE_RANGE, List.range']
    have h2 : downPercent [10, 10, 10, 10, 10, 9, 8, 9] = [1/10, 1/5] := by
      norm_num [downPercent, h1, sliceMax, listMax, max_def, DATE_RANGE]
    rw [h2]
    simp
  exact dip_depth_in_unit_interval [10, 10, 10, 10, 10, 9, 8, 9]
    (by norm_num) ((1 : ℚ)/10) hmem

theorem evalA_downT : downT [10, 10, 10, 10, 10, 9, 8, 9] = [5, 6] := by
  norm_num [downT, DATE_RANGE, List.range']

theorem evalA_downPercent : downPercent [10, 10, 10, 10, 10, 9, 8, 9] = [1/10, 1/5] := by
  norm_num [downPercent, evalA_downT, sliceMax, listMax, max_def, DATE_RANGE]

theorem evalA_pickTi : pickTi (downPercent [10, 10, 10, 10, 10, 9, 8, 9]) = [1, 0] := by
  rw [evalA_downPercent]
  norm_num [pickTi, List.insertionSort, List.orderedInsert, rankLe, List.range_succ]

theorem evalA_calibLoop :
    calibLoop [10, 10, 10, 10, 10, 9, 8, 9] = (⟨50, 1/8, 1⟩, [1]) := by
  unfold calibLoop
  rw [evalA_downT, evalA_pickTi]
  norm_num [loopKs, List.range', runLoop, loopBody, gainsFor, initState, floatMin, List.getD]

/-- C1 (amended): on a series with at least two DipEvents, when the
early-stopping counter never reaches zero, the scan considers the top-`k`
events for every `k` from `1` up to and including `N - 1` only, where `N` is
the number of DipEvents: the loop `for n_point in range(1, len(pick_ti))`
never considers `k = N`, the full set of events. -/
theorem scan_considers_all_but_last_k (s : List ℚ)
    (htol : (finalState s).tol ≠ 0) (hN : 2 ≤ (downT s).length) :
    visitedKs s = List.range' 1 ((downT s).length - 1) := by
  have hlen : (pickTi (downPercent s)).length = (downT s).length := by
    rw [pickTi_length, downPercent_length]
  unfold finalState calibLoop at htol
  unfold visitedKs calibLoop
  rw [runLoop_no_break _ _ _ _ _ htol]
  rw [loopKs, hlen]

theorem scan_considers_all_but_last_k_witness :
    visitedKs [10, 10, 10, 10, 10, 9, 8, 9] =
      List.range' 1 ((downT [10, 10, 10, 10, 10, 9, 8, 9]).length - 1) := by
  refine scan_considers_all_but_last_k [10, 10, 10, 10, 10, 9, 8, 9] ?_ ?_
  · unfold finalState
    rw [evalA_calibLoop]
    decide
  · rw [evalA_downT]
    norm_num

/-- C1 (counterexample): the series `[10,10,10,10,10,9,8,9]` has exactly two
DipEvents and its early-stopping counter stays at `50` (it never reaches
zero), yet the scan considers only `k = 1`: `k = 2`, the total number of
DipEvents, is never considered, contradicting the claim that every `k` up to
and including the total is considered before returning. -/
theorem c1_all_k_counterexample :
    (downT [10, 10, 10, 10, 10, 9, 8, 9]).length = 2 ∧
    (finalState [10, 10, 10, 10, 10, 9, 8, 9]).tol = 50 ∧
    visitedKs [10, 10, 10, 10, 10, 9, 8, 9] = [1] ∧
    2 ∉ visitedKs [10, 10, 10, 10, 10, 9, 8, 9] := by
  have hv : visitedKs [10, 10, 10, 10, 10, 9, 8, 9] = [1] :=
    congrArg Prod.snd evalA_calibLoop
  refine ⟨by rw [evalA_downT]; rfl, ?_, hv, ?_⟩
  · unfold finalState
    rw [evalA_calibLoop]
  · rw [hv]
    decide

deriving instance DecidableEq for Except

/-- C9 (amended): in `filter_low_volume_series` a ticker that misses the
volume cache and whose page scrape raises an exception makes the whole call
raise that exception: there is no per-ticker containment, the remaining
tickers are not processed, and no result dict is produced at all. -/
theorem volume_failure_aborts_batch (volumes : List (String × Int))
    (http : String → ℕ → Bool × String) (t : String) (sr : List ℚ)
    (rest : List (String × List ℚ)) (e : PyErr)
    (h1 : List.lookup t volumes = none)
    (h2 : web_scraping (http t) ["regularMarketVolume"] = .error e) :
    filter_low_volume_series volumes http ((t, sr) :: rest) = .error e := by
  simp [filter_low_volume_series, h1, h2]

/-- Network stub for the volume-filter scenarios: the page for ticker `BBB`
contains a parsable `regularMarketVolume`, every other page does not. -/
def httpStub : String → ℕ → Bool × String :=
  fun t _ =>
    if t = "BBB" then (true, "regularMarketVolume 999999 x") else (true, "nothing here")

theorem volume_failure_aborts_batch_witness :
    filter_low_volume_series [] httpStub [("AAA", [1]), ("BBB", [2])] =
      .error (.exception "symbol not found ") :=
  volume_failure_aborts_batch [] httpStub "AAA" [1] [("BBB", [2])]
    (.exception "symbol not found ") rfl (by decide)

/-- C9 (counterexample): with an empty volume cache, ticker `AAA` failing its
scrape and ticker `BBB` having a healthy volume of `999999`, the batch
`[AAA, BBB]` produces only the propagated exception — `BBB` is not processed
and appears in no result — although `BBB` alone is kept by the volume rule.
This contradicts the claim that one ticker's failure is contained and every
other ticker is still processed. -/
theorem c9_abort_counterexample :
    filter_low_volume_series [] httpStub [("AAA", [1]), ("BBB", [2])] =
      .error (.exception "symbol not found ") ∧
    filter_low_volume_series [] httpStub [("BBB", [2])] = .ok [("BBB", [2])] := by
  constructor
  · decide
  · decide

theorem evalB_downT : downT [10, 10, 10, 10, 10, 9, 5] = [5, 6] := by
  norm_num [downT, DATE_RANGE, List.range']

theorem evalB_downPercent : downPercent [10, 10, 10, 10, 10, 9, 5] = [1/10, 1/2] := by
  norm_num [downPercent, evalB_downT, sliceMax, listMax, max_def, DATE_RANGE]

theorem evalB_pickTi : pickTi (downPercent [10, 10, 10, 10, 10, 9, 5]) = [1, 0] := by
  rw [evalB_downPercent]
  norm_num [pickTi, List.insertionSort, List.orderedInsert, rankLe, List.range_succ]

theorem evalB_gains : gainsFor [10, 10, 10, 10, 10, 9, 5] [5, 6] [1, 0] 1 = [] := by
  norm_num [gainsFor, List.getD]

theorem evalB_calibLoop :
    calibLoop [10, 10, 10, 10, 10, 9, 5] = (initState, [1]) := by
  unfold calibLoop
  rw [evalB_downT, evalB_pickTi]
  norm_num [loopKs, List.range', runLoop, loopBody, evalB_gains]

theorem evalB_gpp :
    get_picked_points [10, 10, 10, 10, 10, 9, 5] = .ok ([], floatMin, 1/10) := by
  have hfs : finalState [10, 10, 10, 10, 10, 9, 5] = initState :=
    congrArg Prod.fst evalB_calibLoop
  unfold get_picked_points
  simp only [hfs, initState]
  simp only [evalB_pickTi]
  simp only [evalB_downPercent, evalB_downT]
  norm_num [pyGetIdx, List.getD, List.get?]

/-- C3 (counterexample): on `[10,10,10,10,10,9,5]` there are two DipEvents
and the deepest one sits at the last index, so the only considered candidate
`k = 1` has an empty gains list, `n_pick` stays `0`, and the function returns
the empty pick set together with `averageRebound = np.finfo(float).min` — not
the maximum of any computed average, since none was computed — and
`threshold = 1/10`, the depth read at `pick_ti[-1]`, which is not the
shallowest depth of any chosen event because no event is chosen. -/
theorem c3_threshold_counterexample :
    get_picked_points [10, 10, 10, 10, 10, 9, 5] = .ok ([], floatMin, 1/10) ∧
    computedAvgs [10, 10, 10, 10, 10, 9, 5] = [] ∧
    (finalState [10, 10, 10, 10, 10, 9, 5]).maxAvg ∉
      computedAvgs [10, 10, 10, 10, 10, 9, 5] := by
  have hvs : visitedKs [10, 10, 10, 10, 10, 9, 5] = [1] :=
    congrArg Prod.snd evalB_calibLoop
  have hca : computedAvgs [10, 10, 10, 10, 10, 9, 5] = [] := by
    unfold computedAvgs
    rw [hvs, evalB_downT, evalB_pickTi]
    simp [avgsAlong, evalB_gains]
  refine ⟨evalB_gpp, hca, ?_⟩
  rw [hca]
  simp

theorem pyGetIdx_nonneg {α : Type} (l : List α) (i : Int) (h : 0 ≤ i) :
    pyGetIdx l i = l.get? i.toNat := by
  simp [pyGetIdx, h, not_lt.mpr h]

/-- C3 (amended): with positive prices, at least two DipEvents, and a
recorded best candidate (`n_pick >= 1`, which holds whenever some considered
`k` produced a nonempty gains list and fails only in the degenerate case
where the single considered candidate's event sits at the last index), the
returned `threshold` is the depth at rank `k*` of the stable depth-descending
ranking and equals the shallowest depth among the chosen top-`k*` events, and
the returned `max_avg_gain` is the maximum of the averages actually computed
over the considered `k`. -/
theorem calibration_threshold_and_best_average (s : List ℚ)
    (hpos : ∀ x ∈ s, 0 < x) (hN : 2 ≤ (downT s).length)
    (hpick : 1 ≤ (finalState s).nPick) :
    ∃ picks thr,
      get_picked_points s = .ok (picks, (finalState s).maxAvg, thr) ∧
      (∃ j ∈ (pickTi (downPercent s)).take ((finalState s).nPick),
        (downPercent s).getD j 0 = thr) ∧
      (∀ j ∈ (pickTi (downPercent s)).take ((finalState s).nPick),
        thr ≤ (downPercent s).getD j 0) ∧
      (finalState s).maxAvg ∈ computedAvgs s ∧
      (∀ x ∈ computedAvgs s, x ≤ (finalState s).maxAvg) := by
  have hlen : (pickTi (downPercent s)).length = (downT s).length := by
    rw [pickTi_length, downPercent_length]
  have hfs : finalState s =
      (runLoop s (downT s) (pickTi (downPercent s)) initState
        (loopKs (pickTi (downPercent s)).length)).1 := rfl
  have hnp := runLoop_nPick_mem s (downT s) (pickTi (downPercent s))
    (loopKs (pickTi (downPercent s)).length) initState
  rw [← hfs] at hnp
  have hp2 : (finalState s).nPick < (pickTi (downPercent s)).length := by
    rcases hnp with h0 | hmem
    · exfalso
      rw [h0] at hpick
      simp [initState] at hpick
    · obtain ⟨h1, h2⟩ := List.mem_range'_1.mp (by simpa [loopKs] using hmem)
      have hN' : 2 ≤ (pickTi (downPercent s)).length := by rw [hlen]; exact hN
      omega
  have hidx : (finalState s).nPick - 1 < (pickTi (downPercent s)).length := by omega
  have hpy : pyGetIdx (pickTi (downPercent s)) (((finalState s).nPick : Int) - 1) =
      some ((pickTi (downPercent s)).get ⟨(finalState s).nPick - 1, hidx⟩) := by
    rw [pyGetIdx_nonneg _ _ (by omega : (0 : Int) ≤ ((finalState s).nPick : Int) - 1)]
    have ht : (((finalState s).nPick : Int) - 1).toNat = (finalState s).nPick - 1 := by omega
    rw [ht]
    exact List.get?_eq_get hidx
  have hfold : (finalState s).maxAvg = (computedAvgs s).foldl max floatMin :=
    runLoop_maxAvg s (downT s) (pickTi (downPercent s))
      (loopKs (pickTi (downPercent s)).length) initState
  have hCne : computedAvgs s ≠ [] := by
    intro h0
    have h1 := runLoop_const_of_no_avgs s (downT s) (pickTi (downPercent s))
      (loopKs (pickTi (downPercent s)).length) initState h0
    have h2 : (finalState s).nPick = 0 := by rw [hfs, h1]; rfl
    omega
  have hgt : ∀ x ∈ computedAvgs s, floatMin < x := by
    intro x hx
    obtain ⟨k, hk, hgne, hxeq⟩ :=
      mem_avgsAlong s (downT s) (pickTi (downPercent s)) _ x hx
    subst hxeq
    have hne2 : gainsFor s (downT s) (pickTi (downPercent s)) k ≠ [] :=
      fun hh => hgne (by rw [hh]; rfl)
    have havg := neg_one_lt_avg _ hne2 (gains_gt_neg_one s hpos _ _ k)
    calc floatMin < -1 := floatMin_lt_neg_one
      _ < _ := havg
  have hmax_mem : (finalState s).maxAvg ∈ computedAvgs s := by
    rcases foldl_max_mem (computedAvgs s) floatMin with heq | hmem2
    · exfalso
      obtain ⟨y, hy⟩ := List.exists_mem_of_ne_nil _ hCne
      have h1 : y ≤ (computedAvgs s).foldl max floatMin := mem_le_foldl_max _ _ _ hy
      rw [heq] at h1
      exact absurd h1 (not_le.mpr (hgt y hy))
    · rw [hfold]
      exact hmem2
  have hmax_ub : ∀ x ∈ computedAvgs s, x ≤ (finalState s).maxAvg := by
    intro x hx
    rw [hfold]
    exact mem_le_foldl_max _ _ _ hx
  refine ⟨((pickTi (downPercent s)).take ((finalState s).nPick)).map
      (fun j => (downT s).getD j 0),
    (downPercent s).getD
      ((pickTi (downPercent s)).get ⟨(finalState s).nPick - 1, hidx⟩) 0,
    ?_, ?_, ?_, hmax_mem, hmax_ub⟩
  · unfold get_picked_points
    simp only [hpy]
  · refine ⟨(pickTi (downPercent s)).get ⟨(finalState s).nPick - 1, hidx⟩, ?_, rfl⟩
    apply List.mem_iff_getElem.mpr
    refine ⟨(finalState s).nPick - 1, ?_, ?_⟩
    · rw [List.length_take]
      omega
    · rw [List.getElem_take]
      rfl
  · intro j hj
    obtain ⟨i, hilen, hieq⟩ := List.mem_iff_getElem.mp hj
    have hitake : i < (finalState s).nPick := by
      rw [List.length_take] at hilen
      omega
    have hipt : i < (pickTi (downPercent s)).length := by omega
    rw [List.getElem_take] at hieq
    by_cases hcase : i = (finalState s).nPick - 1
    · subst hcase
      rw [← hieq]
      exact le_refl _
    · have hlt : i < (finalState s).nPick - 1 := by omega
      have hrel := (pickTi_sorted (downPercent s)).rel_get_of_lt
        (show (⟨i, hipt⟩ : Fin _) < ⟨(finalState s).nPick - 1, hidx⟩ from
          Fin.mk_lt_mk.mpr hlt)
      have hdle := rankLe_depth_le (downPercent s) _ _ hrel
      rw [← hieq]
      exact hdle

theorem calibration_threshold_and_best_average_witness :
    ∃ picks thr,
      get_picked_points [10, 10, 10, 10, 10, 9, 8, 9] =
        .ok (picks, (finalState [10, 10, 10, 10, 10, 9, 8, 9]).maxAvg, thr) ∧
      (∃ j ∈ (pickTi (downPercent [10, 10, 10, 10, 10, 9, 8, 9])).take
          ((finalState [10, 10, 10, 10, 10, 9, 8, 9]).nPick),
        (downPercent [10, 10, 10, 10, 10, 9, 8, 9]).getD j 0 = thr) ∧
      (∀ j ∈ (pickTi (downPercent [10, 10, 10, 10, 10, 9, 8, 9])).take
          ((finalState [10, 10, 10, 10, 10, 9, 8, 9]).nPick),
        thr ≤ (downPercent [10, 10, 10, 10, 10, 9, 8, 9]).getD j 0) ∧
      (finalState [10, 10, 10, 10, 10, 9, 8, 9]).maxAvg ∈
        computedAvgs [10, 10, 10, 10, 10, 9, 8, 9] ∧
      (∀ x ∈ computedAvgs [10, 10, 10, 10, 10, 9, 8, 9],
        x ≤ (finalState [10, 10, 10, 10, 10, 9, 8, 9]).maxAvg) :=
  calibration_threshold_and_best_average [10, 10, 10, 10, 10, 9, 8, 9]
    (by norm_num)
    (by rw [evalA_downT]; norm_num)
    (by unfold finalState; rw [evalA_calibLoop])
